import Mathlib

set_option linter.unusedSectionVars false

/-!
Verification development for the snarkVM polynomial-commitment test templates
(`algorithms/src/polycommit/test_templates.rs`), the circuit lookup-constraint
helper (`circuit/environment/src/helpers/lookup_constraint.rs`), and the
KZG10/Sonic polynomial commitment scheme they exercise.

The commitment scheme itself (`SonicKZG10`: `commit`, `batch_open`,
`batch_check`, `open_combinations`, `check_combinations`) is not part of the
source tree under study, only its test harness is; the scheme is therefore
modelled from the specification, in the standard algebraic "exponent" model of
a pairing group: a group element `g^a` is represented by its exponent `a`, so a
KZG commitment to `p` is the field value `p(β)` for the secret setup point `β`,
hiding contributions live on an independent generator represented by a second
secret `γ`, and the final pairing equality becomes a field equation in `β`.

Polynomials are coefficient lists (index `i` holds the coefficient of `X^i`).
-/

namespace Sonic

section PolyAlgebra

variable {F : Type} [Field F]

/-- Horner evaluation of a coefficient list at a point. -/
def evalPoly : List F → F → F
  | [], _ => 0
  | a :: p, x => a + x * evalPoly p x

/-- Coefficient-wise sum of two coefficient lists. -/
def addPoly : List F → List F → List F
  | [], q => q
  | p, [] => p
  | a :: p, b :: q => (a + b) :: addPoly p q

/-- Scaling of a coefficient list by a field element. -/
def scalePoly (c : F) (p : List F) : List F := p.map (fun a => c * a)

/-- Multiplication by `X^n`: prepend `n` zero coefficients. -/
def shiftPoly (n : Nat) (p : List F) : List F := List.replicate n 0 ++ p

/-- Synthetic division: quotient of `p - p z` by `X - z`. -/
def divByLinear : List F → F → List F
  | [], _ => []
  | _ :: p, z => evalPoly p z :: divByLinear p z

end PolyAlgebra

/-- Modelled from the spec: a named polynomial to commit, wrapping a
coefficient vector with a unique label, an optional degree bound and an
optional hiding bound (`LabeledPolynomial` of the sonic_pc module, which is
outside the source tree under study). -/
structure LabeledPoly (F : Type) where
  label : String
  coeffs : List F
  degree_bound : Option Nat
  hiding_bound : Option Nat
deriving DecidableEq

/-- Modelled from the spec: the hiding blinding material produced at commit
time — a blinding polynomial for the base commitment and one for the shifted
(degree-bound) commitment (`Randomness` of the sonic_pc module). -/
structure PCRandomness (F : Type) where
  blind : List F
  shifted_blind : List F
deriving DecidableEq

/-- Modelled from the spec: a labeled commitment, one or two group elements
(base + degree-bound shift) in exponent representation, together with the
declared degree bound (`LabeledCommitment`/`Commitment` of sonic_pc). -/
structure LabeledCommitment (F : Type) where
  label : String
  degree_bound : Option Nat
  comm : F
  shifted_comm : Option F
deriving DecidableEq

/-- A query set: a list of `(label, (query-name, point))` pairs. -/
abbrev QuerySet (F : Type) : Type := List (String × String × F)

/-- An evaluations map: a list of `((label, point), value)` entries. -/
abbrev EvalMap (F : Type) : Type := List ((String × F) × F)

section PCS

variable {F : Type} [Field F] [DecidableEq F]

/-- Modelled from the spec: the commitment engine on one labeled polynomial,
in the exponent model. The base commitment is `p(β)` plus the hiding
contribution `γ·blind(β)`; when a degree bound `d` is declared a second
commitment to the polynomial shifted by `X^(max_degree − d)` is produced,
with its own blinding (`SonicKZG10::commit`, outside the source tree). -/
def commitOne (β γ : F) (m : Nat) (pr : LabeledPoly F × PCRandomness F) :
    LabeledCommitment F :=
  { label := pr.1.label
    degree_bound := pr.1.degree_bound
    comm := evalPoly pr.1.coeffs β + γ * evalPoly pr.2.blind β
    shifted_comm := pr.1.degree_bound.map (fun d =>
      evalPoly (shiftPoly (m - d) pr.1.coeffs) β + γ * evalPoly pr.2.shifted_blind β) }

/-- The default (zero) polynomial/randomness pair used when a label is absent. -/
def defaultPair (l : String) : LabeledPoly F × PCRandomness F :=
  (⟨l, [], none, none⟩, ⟨[], []⟩)

/-- Look up a labeled polynomial (with its randomness) by label. -/
def lookupPair (prs : List (LabeledPoly F × PCRandomness F)) (l : String) :
    LabeledPoly F × PCRandomness F :=
  (prs.find? (fun pr => decide (pr.1.label = l))).getD (defaultPair l)

/-- The default commitment used when a label is absent. -/
def defaultComm (l : String) : LabeledCommitment F := ⟨l, none, 0, none⟩

/-- Look up a labeled commitment by label. -/
def lookupComm (cs : List (LabeledCommitment F)) (l : String) : LabeledCommitment F :=
  (cs.find? (fun c => decide (c.label = l))).getD (defaultComm l)

/-- Look up a claimed evaluation for a `(label, point)` pair. -/
def lookupEval (vs : EvalMap F) (l : String) (z : F) : F :=
  ((vs.find? (fun e => decide (e.1.1 = l) && decide (e.1.2 = z))).getD ((l, z), 0)).2

/-- The distinct evaluation points of a query set. -/
def queryPoints (qs : QuerySet F) : List F := (qs.map (fun q => q.2.2)).dedup

/-- The labels queried at a given point, in query-set order. -/
def labelsAt (qs : QuerySet F) (z : F) : List String :=
  (qs.filter (fun q => decide (q.2.2 = z))).map (fun q => q.1)

/-- Modelled from the spec: the canonical Fiat-Shamir absorption order — every
commitment (base then shift components) followed by every claimed evaluation
in query-set order; prover and verifier must replicate it bit-for-bit. -/
def transcriptOf (cs : List (LabeledCommitment F)) (vals : List F) : List F :=
  cs.map (fun c => c.comm) ++ cs.filterMap (fun c => c.shifted_comm) ++ vals

/-- The evaluation list the prover absorbs: true evaluations of its
polynomials at the queried points, in query-set order. -/
def proverEvalList (prs : List (LabeledPoly F × PCRandomness F)) (qs : QuerySet F) :
    List F :=
  qs.map (fun q => evalPoly (lookupPair prs q.1).1.coeffs q.2.2)

/-- The evaluation list the verifier absorbs: the claimed evaluations from the
supplied map, in query-set order. -/
def checkerEvalList (vs : EvalMap F) (qs : QuerySet F) : List F :=
  qs.map (fun q => lookupEval vs q.1 q.2.2)

/-- Modelled from the spec: the challenge-weighted virtual polynomial combined
at one query point. Term `k` contributes its polynomial with weight `χ^(2k)`
and, when it declares a degree bound `d`, the `X^(m−d)`-shifted polynomial
with weight `χ^(2k+1)` (degree-bound folding with the same challenges). -/
def combPoly (prs : List (LabeledPoly F × PCRandomness F)) (m : Nat) (χ : F) :
    Nat → List String → List F
  | _, [] => []
  | k, l :: ls =>
    addPoly
      (match (lookupPair prs l).1.degree_bound with
        | some d =>
          addPoly (scalePoly (χ ^ (2 * k)) (lookupPair prs l).1.coeffs)
            (scalePoly (χ ^ (2 * k + 1)) (shiftPoly (m - d) (lookupPair prs l).1.coeffs))
        | none => scalePoly (χ ^ (2 * k)) (lookupPair prs l).1.coeffs)
      (combPoly prs m χ (k + 1) ls)

/-- The blinding polynomial combined with the same challenge weights as
`combPoly` (base blinding at `χ^(2k)`, shifted blinding at `χ^(2k+1)`). -/
def combBlind (prs : List (LabeledPoly F × PCRandomness F)) (χ : F) :
    Nat → List String → List F
  | _, [] => []
  | k, l :: ls =>
    addPoly
      (match (lookupPair prs l).1.degree_bound with
        | some _ =>
          addPoly (scalePoly (χ ^ (2 * k)) (lookupPair prs l).2.blind)
            (scalePoly (χ ^ (2 * k + 1)) (lookupPair prs l).2.shifted_blind)
        | none => scalePoly (χ ^ (2 * k)) (lookupPair prs l).2.blind)
      (combBlind prs χ (k + 1) ls)

/-- The verifier's homomorphic reconstruction of the combined commitment at
one point: base components at `χ^(2k)`, shift components at `χ^(2k+1)`. -/
def combComm (cs : List (LabeledCommitment F)) (χ : F) : Nat → List String → F
  | _, [] => 0
  | k, l :: ls =>
    χ ^ (2 * k) * (lookupComm cs l).comm +
      (match (lookupComm cs l).shifted_comm with
        | some sc => χ ^ (2 * k + 1) * sc
        | none => 0) +
      combComm cs χ (k + 1) ls

/-- The verifier's combined claimed evaluation at one point `z`: claimed value
at `χ^(2k)`, and for a bound `d` the shifted claim `z^(m−d)·value` at
`χ^(2k+1)`. -/
def combValue (vs : EvalMap F) (cs : List (LabeledCommitment F)) (m : Nat)
    (χ z : F) : Nat → List String → F
  | _, [] => 0
  | k, l :: ls =>
    χ ^ (2 * k) * lookupEval vs l z +
      (match (lookupComm cs l).degree_bound with
        | some d => χ ^ (2 * k + 1) * (z ^ (m - d) * lookupEval vs l z)
        | none => 0) +
      combValue vs cs m χ z (k + 1) ls

/-- Modelled from the spec: `batch_open`. Absorb commitments and true
evaluations into the sponge, squeeze one batching challenge per distinct
point, combine the polynomials queried at each point into a virtual
polynomial via the challenge-weighted sum, and produce per point one KZG
witness pair: the witness group element (quotient by `X − point`, with the
blinding quotient on the `γ` generator) and the blinding evaluation scalar. -/
def batchOpen (β γ : F) (m : Nat) (prs : List (LabeledPoly F × PCRandomness F))
    (qs : QuerySet F) (sponge : List F → Nat → F) : List (F × F) :=
  let cs := prs.map (commitOne β γ m)
  let tr := transcriptOf cs (proverEvalList prs qs)
  (queryPoints qs).enum.map (fun tz =>
    let χ := sponge tr tz.1
    let z := tz.2
    let ls := labelsAt qs z
    let P := combPoly prs m χ 0 ls
    let B := combBlind prs χ 0 ls
    (evalPoly (divByLinear P z) β + γ * evalPoly (divByLinear B z) β,
      evalPoly B z))

/-- Modelled from the spec: `batch_check`. Recompute the identical challenge
sequence from the verifier's own copies of commitments and claimed
evaluations, reconstruct per point the combined commitment and combined
claimed evaluation, and test the aggregated pairing equality (in exponent
form) across points with the second-round challenges. -/
def batchCheck (β γ : F) (m : Nat) (cs : List (LabeledCommitment F))
    (qs : QuerySet F) (vs : EvalMap F) (proof : List (F × F))
    (sponge : List F → Nat → F) : Bool :=
  let tr := transcriptOf cs (checkerEvalList vs qs)
  let pts := queryPoints qs
  let n := pts.length
  let items := pts.enum.zip proof
  decide
    ((items.map (fun it =>
        sponge tr (n + it.1.1) * (it.2.1 * (β - it.1.2)))).sum
      =
      (items.map (fun it =>
        sponge tr (n + it.1.1) *
          (combComm cs (sponge tr it.1.1) 0 (labelsAt qs it.1.2) -
            combValue vs cs m (sponge tr it.1.1) it.1.2 0 (labelsAt qs it.1.2) -
            γ * it.2.2))).sum)

end PCS

/-- Modelled from the spec: a named weighted sum of labeled polynomials — a
label and a list of `(coefficient, referenced label)` terms
(`LinearCombination` of the sonic_pc module). -/
structure LinearCombination (F : Type) where
  label : String
  terms : List (F × String)
deriving DecidableEq

section LCLayer

variable {F : Type} [Field F] [DecidableEq F]

/-- Whether a linear combination has no terms (`LinearCombination::is_empty`). -/
def lcIsEmpty (lc : LinearCombination F) : Bool := lc.terms.isEmpty

/-- The coefficient-weighted sum of the referenced polynomials' coefficient
vectors: the virtual polynomial of a linear combination. -/
def lcPoly (prs : List (LabeledPoly F × PCRandomness F)) (lc : LinearCombination F) :
    List F :=
  lc.terms.foldr (fun t acc => addPoly (scalePoly t.1 (lookupPair prs t.2).1.coeffs) acc) []

/-- The corresponding weighted sum of the referenced blinding polynomials. -/
def lcBlind (prs : List (LabeledPoly F × PCRandomness F)) (lc : LinearCombination F) :
    List F :=
  lc.terms.foldr (fun t acc => addPoly (scalePoly t.1 (lookupPair prs t.2).2.blind) acc) []

/-- The degree bound carried by the combination: the first referenced term's
bound, if any referenced polynomial carries one. -/
def lcBoundOf (prs : List (LabeledPoly F × PCRandomness F)) (lc : LinearCombination F) :
    Option Nat :=
  lc.terms.findSome? (fun t => (lookupPair prs t.2).1.degree_bound)

/-- The label referenced by the first term of a combination. -/
def lcHeadLabel (lc : LinearCombination F) : String := (lc.terms.headD (0, "")).2

/-- Modelled from the spec: the rule for mixed degree bounds within one
combination — if any referenced term carries a degree bound, the combination
is legal only when it degenerates to that single bound-carrying term with
coefficient one; otherwise every referenced term must be bound-free. -/
def lcWellFormed (prs : List (LabeledPoly F × PCRandomness F))
    (lc : LinearCombination F) : Prop :=
  (∀ t ∈ lc.terms, (lookupPair prs t.2).1.degree_bound = none) ∨
    (∃ l d, lc.terms = [(1, l)] ∧ (lookupPair prs l).1.degree_bound = some d)

/-- Modelled from the spec: the virtual labeled polynomial (with its
randomness) that `open_combinations` forms for one combination: the
coefficient-weighted sum of the referenced polynomials, or, for a legal
bound-carrying combination, the single referenced polynomial relabeled. -/
def virtualPair (prs : List (LabeledPoly F × PCRandomness F))
    (lc : LinearCombination F) : LabeledPoly F × PCRandomness F :=
  match lcBoundOf prs lc with
  | none => (⟨lc.label, lcPoly prs lc, none, some 1⟩, ⟨lcBlind prs lc, []⟩)
  | some d =>
    (⟨lc.label, (lookupPair prs (lcHeadLabel lc)).1.coeffs, some d,
        (lookupPair prs (lcHeadLabel lc)).1.hiding_bound⟩,
      (lookupPair prs (lcHeadLabel lc)).2)

/-- The degree bound of a combination as the verifier derives it, from the
labeled commitments instead of the polynomials. -/
def lcBoundOfC (cs : List (LabeledCommitment F)) (lc : LinearCombination F) :
    Option Nat :=
  lc.terms.findSome? (fun t => (lookupComm cs t.2).degree_bound)

/-- Modelled from the spec: the virtual commitment `check_combinations`
reconstructs for one combination via the commitment homomorphism
`Commit(sum of c_i P_i) = sum of c_i Commit(P_i)`. -/
def virtualComm (cs : List (LabeledCommitment F)) (lc : LinearCombination F) :
    LabeledCommitment F :=
  match lcBoundOfC cs lc with
  | none =>
    ⟨lc.label, none,
      lc.terms.foldr (fun t acc => t.1 * (lookupComm cs t.2).comm + acc) 0, none⟩
  | some d =>
    ⟨lc.label, some d, (lookupComm cs (lcHeadLabel lc)).comm,
      (lookupComm cs (lcHeadLabel lc)).shifted_comm⟩

/-- Modelled from the spec: `open_combinations` forms the virtual polynomials
of the combinations and invokes the batch opening machinery on them, with the
query set keyed by combination label. -/
def openCombinations (β γ : F) (m : Nat) (prs : List (LabeledPoly F × PCRandomness F))
    (lcs : List (LinearCombination F)) (qs : QuerySet F)
    (sponge : List F → Nat → F) : List (F × F) :=
  batchOpen β γ m (lcs.map (virtualPair prs)) qs sponge

/-- Modelled from the spec: `check_combinations` reconstructs the virtual
commitments via the homomorphism and runs `batch_check` against them with the
supplied claimed evaluations and proof. -/
def checkCombinations (β γ : F) (m : Nat) (cs : List (LabeledCommitment F))
    (lcs : List (LinearCombination F)) (qs : QuerySet F) (vs : EvalMap F)
    (proof : List (F × F)) (sponge : List F → Nat → F) : Bool :=
  batchCheck β γ m (lcs.map (virtualComm cs)) qs vs proof sponge

end LCLayer

/-- Modelled from the spec: the Lagrange-basis variant of a labeled
polynomial — a label, an evaluation vector over a domain, and an optional
hiding bound (`LabeledPolynomialWithBasis` of sonic_pc). The domain is the
list of evaluation points. -/
structure LabeledPolyWithBasis (F : Type) where
  label : String
  evals : List F
  domain : List F
  hiding_bound : Option Nat
deriving DecidableEq

section Lagrange

variable {F : Type} [Field F] [DecidableEq F]

/-- Product of two coefficient lists. -/
def mulPoly : List F → List F → List F
  | [], _ => []
  | a :: p, q => addPoly (scalePoly a q) (0 :: mulPoly p q)

/-- The `i`-th Lagrange basis polynomial of a domain: the product of
`(X − x_j)/(x_i − x_j)` over the other domain points `x_j`. -/
def lagrangeBasisPoly (dom : List F) (i : Nat) : List F :=
  scalePoly
    (((dom.enum.filter (fun jx => decide (jx.1 ≠ i))).map (fun jx => jx.2)).foldr
      (fun xj acc => (dom.getD i 0 - xj) * acc) 1)⁻¹
    (((dom.enum.filter (fun jx => decide (jx.1 ≠ i))).map (fun jx => jx.2)).foldr
      (fun xj acc => mulPoly [-xj, 1] acc) [1])

/-- The Lagrange basis polynomials of a domain, in order. -/
def lagrangeBasis (dom : List F) : List (List F) :=
  (List.range dom.length).map (lagrangeBasisPoly dom)

/-- Modelled from the spec: interpolation of an evaluation vector over a
domain to coefficient form — the evaluation-weighted sum of the Lagrange
basis polynomials (the supplied polynomial/FFT library's interpolate). -/
def interpolate (dom : List F) (evals : List F) : List F :=
  (List.zipWith scalePoly evals (lagrangeBasis dom)).foldr addPoly []

/-- Modelled from the spec: committing a `LabeledPolynomialWithBasis`
directly from the Lagrange-basis SRS elements for the matching domain — the
multi-scalar multiplication of the evaluation vector with the basis
polynomials' commitments `L_i(β)`, plus the hiding contribution. -/
def commitLagrangeOne (β γ : F) (pl : LabeledPolyWithBasis F × PCRandomness F) :
    LabeledCommitment F :=
  ⟨pl.1.label, none,
    (List.zipWith (fun e b => e * evalPoly b β) pl.1.evals (lagrangeBasis pl.1.domain)).sum +
      γ * evalPoly pl.2.blind β,
    none⟩

/-- The coefficient-form labeled polynomial obtained by interpolating a
Lagrange-basis labeled polynomial (what `lagrange_test_template` commits and
opens in coefficient form). -/
def interpolatedPair (pl : LabeledPolyWithBasis F × PCRandomness F) :
    LabeledPoly F × PCRandomness F :=
  (⟨pl.1.label, interpolate pl.1.domain pl.1.evals, none, pl.1.hiding_bound⟩, pl.2)

end Lagrange

end Sonic

namespace TestTemplates

open Sonic

/-- The `TestInfo` record parameterizing `test_template` and
`equation_test_template`. -/
structure TestInfo where
  num_iters : Nat
  max_degree : Option Nat
  supported_degree : Option Nat
  num_polynomials : Nat
  enforce_degree_bounds : Bool
  max_num_queries : Nat
  num_equations : Option Nat
deriving DecidableEq

/-- The fixed candidate degree bounds of `test_template` and
`equation_test_template`: `vec![1 << 10, 1 << 15, 1 << 20, 1 << 25, 1 << 30]`. -/
def supportedDegreeBounds : List Nat := [1024, 32768, 1048576, 33554432, 1073741824]

/-- `supported_degree_bounds_after_trimmed`: the candidate bounds that are at
least the sampled degree and strictly below the supported degree. -/
def trimmedBounds (degree suppDeg : Nat) : List Nat :=
  supportedDegreeBounds.filter (fun x => decide (degree ≤ x) && decide (x < suppDeg))

/-- The degree-bound selection of `test_template`/`equation_test_template`:
a bound is chosen only when degree bounds are enforced, the trimmed candidate
list is nonempty and the coin flip succeeds; it is then picked from the
trimmed list. -/
def chooseDegreeBound (enforce : Bool) (degree suppDeg : Nat) (flag : Bool)
    (pick : Nat) : Option Nat :=
  if enforce && !(trimmedBounds degree suppDeg).isEmpty && flag then
    some ((trimmedBounds degree suppDeg).getD (pick % (trimmedBounds degree suppDeg).length) 0)
  else none

/-- `distributions::Uniform::from(lo..=hi).sample`, modelled on a raw draw
`r` as `lo + r % (hi + 1 - lo)`. -/
def sampleUniform (lo hi r : Nat) : Nat := lo + r % (hi + 1 - lo)

/-- The random choices consumed per generated polynomial: the sampled degree,
the sampled coefficients, the degree-bound coin flip and the bound index. -/
structure PolyChoice (F : Type) where
  degree : Nat
  coeffs : List F
  flag : Bool
  pick : Nat
deriving DecidableEq

/-- One labeled polynomial as generated by the loop of
`test_template`/`equation_test_template` at index `i`: label `Test{i}`,
the sampled coefficients, the selected degree bound, hiding bound 1. -/
def genPoly {F : Type} [Field F] [DecidableEq F] (enforce : Bool) (suppDeg i : Nat)
    (c : PolyChoice F) : LabeledPoly F :=
  ⟨"Test" ++ toString i, c.coeffs,
    chooseDegreeBound enforce c.degree suppDeg c.flag c.pick, some 1⟩

/-- The full list of generated polynomials of one iteration. -/
def genPolys {F : Type} [Field F] [DecidableEq F] (enforce : Bool) (suppDeg : Nat)
    (cs : List (PolyChoice F)) : List (LabeledPoly F) :=
  cs.enum.map (fun ic => genPoly enforce suppDeg ic.1 ic.2)

/-- The `degree_bounds` set of one iteration: every selected bound is
inserted. -/
def genDegreeBounds {F : Type} [Field F] [DecidableEq F] (enforce : Bool)
    (suppDeg : Nat) (cs : List (PolyChoice F)) : List Nat :=
  cs.filterMap (fun c => chooseDegreeBound enforce c.degree suppDeg c.flag c.pick)

/-- Coefficient list with trailing zeros removed. -/
def trimTrailingZeros {F : Type} [Field F] [DecidableEq F] (p : List F) : List F :=
  (p.reverse.dropWhile (fun a => decide (a = 0))).reverse

/-- The actual degree of a coefficient list (`DensePolynomial::degree`). -/
def natDegree {F : Type} [Field F] [DecidableEq F] (p : List F) : Nat :=
  (trimTrailingZeros p).length - 1

/-- One labeled polynomial as generated by `bad_degree_bound_test` at index
`i`: coefficients sampled at the supported degree, but degree bound fixed to
`1` and hiding bound `1`. -/
def badDegreeBoundPoly {F : Type} [Field F] [DecidableEq F] (i : Nat)
    (coeffs : List F) : LabeledPoly F :=
  ⟨"Test" ++ toString i, coeffs, some 1, some 1⟩

/-- The `degree_bounds` set `bad_degree_bound_test` builds: it only ever
inserts the constant bound `1`. -/
def badDegreeBounds : List Nat := [1]

/-- Iteration count of `bad_degree_bound_test`: `for _ in 0..10`. -/
def badDegreeBoundIterations : Nat := 10

/-- Iteration count of `lagrange_test_template`: `num_iters = 10usize`. -/
def lagrangeIterations : Nat := 10

/-- The `TestInfo` used by `linear_poly_degree_bound_test`. -/
def linearPolyDegreeBoundTestInfo : TestInfo :=
  ⟨100, some 2, some 1, 1, true, 1, none⟩

/-- Every test scenario the templates establish, with its iteration count:
the two fixed-count templates, and the eleven `TestInfo`-parameterized public
tests (all declared with `num_iters: 100`). -/
def scenarioIterations : List (String × Nat) :=
  [("bad_degree_bound_test", badDegreeBoundIterations),
   ("lagrange_test_template", lagrangeIterations),
   ("single_poly_test", 100),
   ("linear_poly_degree_bound_test", linearPolyDegreeBoundTestInfo.num_iters),
   ("single_poly_degree_bound_test", 100),
   ("quadratic_poly_degree_bound_multiple_queries_test", 100),
   ("single_poly_degree_bound_multiple_queries_test", 100),
   ("two_polys_degree_bound_single_query_test", 100),
   ("full_end_to_end_test", 100),
   ("full_end_to_end_equation_test", 100),
   ("single_equation_test", 100),
   ("two_equation_test", 100),
   ("two_equation_degree_bound_test", 100)]

/-- Whether every scenario performs at least `n` iterations. -/
def allScenariosAtLeast (n : Nat) : Bool :=
  scenarioIterations.all (fun p => decide (n ≤ p.2))

section EquationTemplate

variable {F : Type} [Field F] [DecidableEq F]

/-- The `else` arm of the equation-construction loop of
`equation_test_template`: polynomials carrying a degree bound are skipped;
each bound-free polynomial contributes a fresh random coefficient times its
evaluation, and a term `(coeff, label)` is added to the combination. -/
def eqnElse : List (LabeledPoly F) → List F → F → List (F × String) × F
  | [], _, _ => ([], 0)
  | p :: ps, cs, z =>
    match p.degree_bound with
    | some _ => eqnElse ps cs z
    | none =>
      ((cs.headD 0, p.label) :: (eqnElse ps cs.tail z).1,
        cs.headD 0 * evalPoly p.coeffs z + (eqnElse ps cs.tail z).2)

/-- The equation-construction loop body of `equation_test_template` for one
equation: when the `should_have_degree_bounds` coin is true the loop adds the
first polynomial with coefficient one and breaks; otherwise it walks every
polynomial through the `else` arm. Returns the combination's terms and the
claimed value. -/
def eqnTermsValue (polys : List (LabeledPoly F)) (flag : Bool) (z : F)
    (cs : List F) : List (F × String) × F :=
  if flag then
    match polys with
    | [] => ([], 0)
    | p :: _ => ([(1, p.label)], evalPoly p.coeffs z)
  else eqnElse polys cs z

/-- The label `query {i} eqn {j}` of one equation. -/
def eqnLabel (i j : Nat) : String :=
  "query " ++ toString i ++ " eqn " ++ toString j

/-- The per-equation random choices: the `should_have_degree_bounds` coin and
the stream of random coefficients. -/
structure EqnChoice (F : Type) where
  flag : Bool
  coeffs : List F
deriving DecidableEq

/-- The equations built at one query point: values are recorded for every
equation, while the combination and its query-set entry are pushed only when
the combination is nonempty. -/
def eqnBuildPoint (polys : List (LabeledPoly F)) (i : Nat) (z : F) :
    Nat → List (EqnChoice F) →
      List (LinearCombination F) × QuerySet F × EvalMap F
  | _, [] => ([], [], [])
  | j, ch :: chs =>
    if (eqnTermsValue polys ch.flag z ch.coeffs).1.isEmpty then
      ((eqnBuildPoint polys i z (j + 1) chs).1,
        (eqnBuildPoint polys i z (j + 1) chs).2.1,
        ((eqnLabel i j, z), (eqnTermsValue polys ch.flag z ch.coeffs).2) ::
          (eqnBuildPoint polys i z (j + 1) chs).2.2)
    else
      (⟨eqnLabel i j, (eqnTermsValue polys ch.flag z ch.coeffs).1⟩ ::
          (eqnBuildPoint polys i z (j + 1) chs).1,
        (eqnLabel i j, ("rand_" ++ toString i, z)) ::
          (eqnBuildPoint polys i z (j + 1) chs).2.1,
        ((eqnLabel i j, z), (eqnTermsValue polys ch.flag z ch.coeffs).2) ::
          (eqnBuildPoint polys i z (j + 1) chs).2.2)

/-- The linear combinations, query set and evaluations built across all query
points of one iteration of `equation_test_template`. -/
def eqnBuildAll (polys : List (LabeledPoly F)) :
    Nat → List (F × List (EqnChoice F)) →
      List (LinearCombination F) × QuerySet F × EvalMap F
  | _, [] => ([], [], [])
  | i, pc :: rest =>
    ((eqnBuildPoint polys i pc.1 0 pc.2).1 ++ (eqnBuildAll polys (i + 1) rest).1,
      (eqnBuildPoint polys i pc.1 0 pc.2).2.1 ++ (eqnBuildAll polys (i + 1) rest).2.1,
      (eqnBuildPoint polys i pc.1 0 pc.2).2.2 ++ (eqnBuildAll polys (i + 1) rest).2.2)

/-- One iteration of `equation_test_template` after equation construction:
when every constructed combination is empty the iteration is skipped
(`continue`) and produces nothing; otherwise it proceeds with the built
combinations, query set and evaluations. -/
def eqnIteration (polys : List (LabeledPoly F))
    (choices : List (F × List (EqnChoice F))) :
    Option (List (LinearCombination F) × QuerySet F × EvalMap F) :=
  if (eqnBuildAll polys 0 choices).1.isEmpty then none
  else some (eqnBuildAll polys 0 choices)

end EquationTemplate

section QueryBuilders

variable {F : Type} [Field F] [DecidableEq F]

/-- The query set built by `test_template`/`lagrange_test_template`: for each
query point (indexed by `point_id`) and each label, the entry
`(label, (rand_{point_id}, point))` is inserted. -/
def tmplQueries (labels : List String) (points : List F) : QuerySet F :=
  points.enum.flatMap (fun iz =>
    labels.map (fun l => (l, ("rand_" ++ toString iz.1, iz.2))))

/-- The evaluations map built alongside `tmplQueries`: for the same point and
each polynomial, the entry `((label, point), poly(point))` is inserted. -/
def tmplValues (polys : List (LabeledPoly F)) (points : List F) : EvalMap F :=
  points.enum.flatMap (fun iz =>
    polys.map (fun p => ((p.label, iz.2), evalPoly p.coeffs iz.2)))

end QueryBuilders

/-- Fuel-driven loop of `usize::next_power_of_two`: starting from `p`, double
until `n ≤ p`. -/
def np2Go : Nat → Nat → Nat → Nat
  | 0, _, p => p
  | f + 1, n, p => if n ≤ p then p else np2Go f n (2 * p)

/-- Modelled from the Rust standard library: `usize::next_power_of_two`, the
least power of two greater than or equal to `n` (with `0 → 1`). -/
def rustNextPowerOfTwo (n : Nat) : Nat := np2Go n n 1

/-- The random evaluation vector of `lagrange_test_template`: `n` sampled
field elements. -/
def lagrangeEvals {F : Type} [Field F] (f : Nat → F) (n : Nat) : List F :=
  (List.range n).map f

/-- Modelled from the spec: `EvaluationDomain::new(num_coeffs).size()` — the
domain size is the number of coefficients rounded up to a power of two. -/
def evaluationDomainSize (numCoeffs : Nat) : Nat := rustNextPowerOfTwo numCoeffs

/-- The domain size `lagrange_test_template` inserts into
`supported_lagrange_sizes` for a raw sample `s` drawn from `1..128`: the
evaluation vector has length `s.next_power_of_two()` and the domain is built
on that length. -/
def lagrangeInsertedSize (s : Nat) : Nat :=
  evaluationDomainSize (rustNextPowerOfTwo s)

end TestTemplates

/-- The modulus 101 is prime, so `ZMod 101` is a field usable as the concrete
scalar field of witnesses. -/
instance fact_prime_101 : Fact (Nat.Prime 101) := ⟨by norm_num⟩

namespace Circuit

/-- Modelled from the source's circuit environment: a linear combination with
a constant part and `(coefficient, variable value)` terms, exposing the
`value` the lookup-constraint display logic reads. -/
structure LinearCombination (F : Type) where
  constant : F
  terms : List (F × F)
deriving DecidableEq

/-- The evaluated value of a circuit linear combination. -/
def LinearCombination.value {F : Type} [Field F] (lc : LinearCombination F) : F :=
  lc.constant + (lc.terms.map (fun t => t.1 * t.2)).sum

/-- `LookupConstraint`: a scope, three linear combinations `(a, b, c)` and a
lookup-table index. -/
structure LookupConstraint (F : Type) where
  scope : String
  a : LinearCombination F
  b : LinearCombination F
  c : LinearCombination F
  table_index : Nat
deriving DecidableEq

/-- `LookupConstraint::is_satisfied`: the body is a commented-out product
check followed by `true` — it returns `true` unconditionally. -/
def LookupConstraint.is_satisfied {F : Type} [Field F]
    (_k : LookupConstraint F) : Bool := true

/-- `LookupConstraint::to_terms`: the references to `(a, b, c)` and the table
index. -/
def LookupConstraint.to_terms {F : Type} [Field F] (k : LookupConstraint F) :
    LinearCombination F × LinearCombination F × LinearCombination F × Nat :=
  (k.a, k.b, k.c, k.table_index)

/-- The product condition the `Display` implementation uses to decide between
the satisfied and unsatisfied message: `(a * b) == c` on the values. -/
def displayCondition {F : Type} [Field F] [DecidableEq F]
    (k : LookupConstraint F) : Bool :=
  decide (k.a.value * k.b.value = k.c.value)

/-- A concrete constraint whose display condition is false (`1 * 1 ≠ 2`). -/
def demoUnsatisfied : LookupConstraint (ZMod 101) :=
  ⟨"demo", ⟨1, []⟩, ⟨1, []⟩, ⟨2, []⟩, 0⟩

end Circuit

namespace Sonic

section PolyLemmas

variable {F : Type} [Field F]

theorem evalPoly_nil (x : F) : evalPoly ([] : List F) x = 0 := rfl

theorem evalPoly_cons (a : F) (p : List F) (x : F) :
    evalPoly (a :: p) x = a + x * evalPoly p x := rfl

theorem evalPoly_addPoly (p q : List F) (x : F) :
    evalPoly (addPoly p q) x = evalPoly p x + evalPoly q x := by
  induction p generalizing q with
  | nil => simp [addPoly, evalPoly]
  | cons a p ih =>
    cases q with
    | nil => simp [addPoly, evalPoly]
    | cons b q => simp [addPoly, evalPoly, ih]; ring

theorem evalPoly_scalePoly (c : F) (p : List F) (x : F) :
    evalPoly (scalePoly c p) x = c * evalPoly p x := by
  induction p with
  | nil => simp [scalePoly, evalPoly]
  | cons a p ih => simp [scalePoly, evalPoly] at *; rw [ih]; ring

theorem evalPoly_shiftPoly (n : Nat) (p : List F) (x : F) :
    evalPoly (shiftPoly n p) x = x ^ n * evalPoly p x := by
  induction n with
  | zero => simp [shiftPoly]
  | succ n ih =>
    simp only [shiftPoly, List.replicate_succ, List.cons_append, evalPoly, List.append_eq] at *
    rw [ih]; ring

/-- The defining property of synthetic division: the quotient witnesses the
evaluation, which is the algebraic heart of the KZG opening check. -/
theorem evalPoly_divByLinear (p : List F) (z x : F) :
    evalPoly (divByLinear p z) x * (x - z) = evalPoly p x - evalPoly p z := by
  induction p with
  | nil => simp [divByLinear, evalPoly]
  | cons a p ih =>
    simp only [divByLinear, evalPoly]
    have := ih
    ring_nf
    ring_nf at this
    linear_combination x * this

end PolyLemmas

section PCSLemmas

variable {F : Type} [Field F] [DecidableEq F]

theorem find?_map_commitOne (β γ : F) (m : Nat)
    (prs : List (LabeledPoly F × PCRandomness F)) (l : String) :
    (prs.map (commitOne β γ m)).find? (fun c => decide (c.label = l)) =
      (prs.find? (fun pr => decide (pr.1.label = l))).map (commitOne β γ m) := by
  induction prs with
  | nil => rfl
  | cons pr prs ih =>
    by_cases h : pr.1.label = l
    · simp [List.find?, commitOne, h]
    · simp only [List.map_cons, List.find?]
      have h1 : (decide ((commitOne β γ m pr).label = l)) = false := by
        simp [commitOne, h]
      have h2 : (decide (pr.1.label = l)) = false := by simp [h]
      rw [h1, h2]
      exact ih

theorem lookupComm_map_commitOne (β γ : F) (m : Nat)
    (prs : List (LabeledPoly F × PCRandomness F)) (l : String) :
    lookupComm (prs.map (commitOne β γ m)) l = commitOne β γ m (lookupPair prs l) := by
  unfold lookupComm lookupPair
  rw [find?_map_commitOne]
  cases h : prs.find? (fun pr => decide (pr.1.label = l)) with
  | none => simp [defaultComm, defaultPair, commitOne, evalPoly]
  | some pr => simp

theorem zip_self_map {α β' : Type} (l : List α) (f : α → β') :
    l.zip (l.map f) = l.map (fun a => (a, f a)) := by
  induction l with
  | nil => rfl
  | cons a l ih => simp [List.zip_cons_cons, ih]

/-- The verifier's homomorphic combined commitment equals the commitment of
the prover's combined virtual polynomial (with its combined blinding). -/
theorem combComm_eq (β γ : F) (m : Nat) (χ : F)
    (prs : List (LabeledPoly F × PCRandomness F)) :
    ∀ (ls : List String) (k : Nat),
      combComm (prs.map (commitOne β γ m)) χ k ls =
        evalPoly (combPoly prs m χ k ls) β + γ * evalPoly (combBlind prs χ k ls) β := by
  intro ls
  induction ls with
  | nil => intro k; simp [combComm, combPoly, combBlind, evalPoly]
  | cons l ls ih =>
    intro k
    rw [show combComm (prs.map (commitOne β γ m)) χ k (l :: ls) =
      χ ^ (2 * k) * (lookupComm (prs.map (commitOne β γ m)) l).comm +
        (match (lookupComm (prs.map (commitOne β γ m)) l).shifted_comm with
          | some sc => χ ^ (2 * k + 1) * sc
          | none => 0) +
        combComm (prs.map (commitOne β γ m)) χ (k + 1) ls from rfl]
    rw [lookupComm_map_commitOne, ih]
    cases h : (lookupPair prs l).1.degree_bound with
    | none =>
      simp only [combPoly, combBlind, h, commitOne, Option.map_none]
      simp [evalPoly_addPoly, evalPoly_scalePoly]
      ring
    | some d =>
      simp only [combPoly, combBlind, h, commitOne, Option.map_some]
      simp [evalPoly_addPoly, evalPoly_scalePoly]
      ring

/-- When the claimed evaluations are the true evaluations, the verifier's
combined claimed value equals the prover's combined virtual polynomial
evaluated at the point. -/
theorem combValue_eq (β γ : F) (m : Nat) (χ z : F) (vs : EvalMap F)
    (prs : List (LabeledPoly F × PCRandomness F)) :
    ∀ (ls : List String) (k : Nat),
      (∀ l ∈ ls, lookupEval vs l z = evalPoly (lookupPair prs l).1.coeffs z) →
      combValue vs (prs.map (commitOne β γ m)) m χ z k ls =
        evalPoly (combPoly prs m χ k ls) z := by
  intro ls
  induction ls with
  | nil => intro k _; simp [combValue, combPoly, evalPoly]
  | cons l ls ih =>
    intro k hv
    rw [show combValue vs (prs.map (commitOne β γ m)) m χ z k (l :: ls) =
      χ ^ (2 * k) * lookupEval vs l z +
        (match (lookupComm (prs.map (commitOne β γ m)) l).degree_bound with
          | some d => χ ^ (2 * k + 1) * (z ^ (m - d) * lookupEval vs l z)
          | none => 0) +
        combValue vs (prs.map (commitOne β γ m)) m χ z (k + 1) ls from rfl]
    rw [lookupComm_map_commitOne, ih (k + 1) (fun l' hl' => hv l' (List.mem_cons_of_mem l hl'))]
    rw [hv l (List.mem_cons_self l ls)]
    cases h : (lookupPair prs l).1.degree_bound with
    | none =>
      simp only [combPoly, h, commitOne]
      simp [evalPoly_addPoly, evalPoly_scalePoly]
    | some d =>
      simp only [combPoly, h, commitOne]
      simp [evalPoly_addPoly, evalPoly_scalePoly, evalPoly_shiftPoly]

theorem labelsAt_mem (qs : QuerySet F) (z : F) (l : String) (hl : l ∈ labelsAt qs z) :
    ∃ q, q ∈ qs ∧ q.1 = l ∧ q.2.2 = z := by
  rw [labelsAt, List.mem_map] at hl
  obtain ⟨q, hq, rfl⟩ := hl
  rw [List.mem_filter] at hq
  exact ⟨q, hq.1, rfl, by simpa using hq.2⟩

/-- Completeness of the modelled batch opening protocol: on commitments
produced by `commitOne` from the very polynomials being opened, and claimed
evaluations that agree with the true evaluations at every queried
`(label, point)` pair, `batchCheck` accepts the proof that `batchOpen`
produces, for every SRS secret, sponge and query set. -/
theorem batchCheck_complete (β γ : F) (m : Nat)
    (prs : List (LabeledPoly F × PCRandomness F)) (qs : QuerySet F) (vs : EvalMap F)
    (sponge : List F → Nat → F)
    (hvals : ∀ q ∈ qs, lookupEval vs q.1 q.2.2 = evalPoly (lookupPair prs q.1).1.coeffs q.2.2) :
    batchCheck β γ m (prs.map (commitOne β γ m)) qs vs
      (batchOpen β γ m prs qs sponge) sponge = true := by
  have hevl : checkerEvalList vs qs = proverEvalList prs qs := by
    unfold checkerEvalList proverEvalList
    exact List.map_congr_left hvals
  simp only [batchCheck, batchOpen]
  rw [decide_eq_true_eq, hevl, zip_self_map, List.map_map, List.map_map]
  congr 1
  apply List.map_congr_left
  intro tz _
  simp only [Function.comp]
  congr 1
  have hls : ∀ l ∈ labelsAt qs tz.2,
      lookupEval vs l tz.2 = evalPoly (lookupPair prs l).1.coeffs tz.2 := by
    intro l hl
    obtain ⟨q, hq, h1, h2⟩ := labelsAt_mem qs tz.2 l hl
    rw [← h1, ← h2]
    exact hvals q hq
  set tr := transcriptOf (prs.map (commitOne β γ m)) (proverEvalList prs qs) with htr
  set χ := sponge tr tz.1 with hχ
  set ls := labelsAt qs tz.2 with hlsdef
  rw [combComm_eq β γ m χ prs ls 0, combValue_eq β γ m χ tz.2 vs prs ls 0 hls]
  have hdivP := evalPoly_divByLinear (combPoly prs m χ 0 ls) tz.2 β
  have hdivB := evalPoly_divByLinear (combBlind prs χ 0 ls) tz.2 β
  linear_combination hdivP + γ * hdivB

theorem commitOne_degree_bound (β γ : F) (m : Nat)
    (pr : LabeledPoly F × PCRandomness F) :
    (commitOne β γ m pr).degree_bound = pr.1.degree_bound := rfl

theorem commitOne_comm (β γ : F) (m : Nat) (pr : LabeledPoly F × PCRandomness F) :
    (commitOne β γ m pr).comm =
      evalPoly pr.1.coeffs β + γ * evalPoly pr.2.blind β := rfl

theorem lcBoundOfC_map (β γ : F) (m : Nat)
    (prs : List (LabeledPoly F × PCRandomness F)) (lc : LinearCombination F) :
    lcBoundOfC (prs.map (commitOne β γ m)) lc = lcBoundOf prs lc := by
  unfold lcBoundOfC lcBoundOf
  induction lc.terms with
  | nil => rfl
  | cons t ts ih =>
    simp only [List.findSome?_cons, lookupComm_map_commitOne, commitOne_degree_bound]

theorem findSome?_bound_none (prs : List (LabeledPoly F × PCRandomness F)) :
    ∀ ts : List (F × String),
      (∀ t ∈ ts, (lookupPair prs t.2).1.degree_bound = none) →
      ts.findSome? (fun t => (lookupPair prs t.2).1.degree_bound) = none := by
  intro ts
  induction ts with
  | nil => intro _; rfl
  | cons t ts ih =>
    intro hall
    simp only [List.findSome?_cons, hall t (List.mem_cons_self t ts)]
    exact ih (fun t' ht' => hall t' (List.mem_cons_of_mem t ht'))

theorem foldr_comm_map (β γ : F) (m : Nat)
    (prs : List (LabeledPoly F × PCRandomness F)) :
    ∀ ts : List (F × String),
      ts.foldr (fun t acc => t.1 * (lookupComm (prs.map (commitOne β γ m)) t.2).comm + acc) 0 =
        evalPoly (ts.foldr (fun t acc => addPoly (scalePoly t.1 (lookupPair prs t.2).1.coeffs) acc) []) β +
          γ * evalPoly (ts.foldr (fun t acc => addPoly (scalePoly t.1 (lookupPair prs t.2).2.blind) acc) []) β := by
  intro ts
  induction ts with
  | nil => simp [evalPoly]
  | cons t ts ih =>
    simp only [List.foldr_cons]
    rw [ih, lookupComm_map_commitOne, commitOne_comm]
    simp only [evalPoly_addPoly, evalPoly_scalePoly]
    ring

/-- The verifier's homomorphic virtual commitment for a well-formed
combination equals the commitment of the prover's virtual polynomial. -/
theorem virtualComm_eq (β γ : F) (m : Nat)
    (prs : List (LabeledPoly F × PCRandomness F)) (lc : LinearCombination F)
    (hwf : lcWellFormed prs lc) :
    virtualComm (prs.map (commitOne β γ m)) lc = commitOne β γ m (virtualPair prs lc) := by
  rcases hwf with hall | ⟨l, d, hterms, hbound⟩
  · have hb : lcBoundOf prs lc = none := findSome?_bound_none prs lc.terms hall
    unfold virtualComm virtualPair
    rw [lcBoundOfC_map, hb]
    dsimp only [commitOne]
    rw [foldr_comm_map β γ m prs lc.terms]
    rfl
  · have hb : lcBoundOf prs lc = some d := by
      unfold lcBoundOf
      rw [hterms]
      simp [List.findSome?_cons, hbound]
    have hhead : lcHeadLabel lc = l := by unfold lcHeadLabel; rw [hterms]; rfl
    unfold virtualComm virtualPair
    rw [lcBoundOfC_map, hb, hhead, lookupComm_map_commitOne]
    dsimp only [commitOne]
    rw [hbound]

/-- Completeness of the modelled linear-combination layer: with well-formed
combinations, commitments produced from the referenced polynomials, and
claimed evaluations agreeing with the true evaluations of the virtual
polynomials, `checkCombinations` accepts the proof `openCombinations`
produces. -/
theorem checkCombinations_complete (β γ : F) (m : Nat)
    (prs : List (LabeledPoly F × PCRandomness F)) (lcs : List (LinearCombination F))
    (qs : QuerySet F) (vs : EvalMap F) (sponge : List F → Nat → F)
    (hwf : ∀ lc ∈ lcs, lcWellFormed prs lc)
    (hvals : ∀ q ∈ qs, lookupEval vs q.1 q.2.2 =
      evalPoly (lookupPair (lcs.map (virtualPair prs)) q.1).1.coeffs q.2.2) :
    checkCombinations β γ m (prs.map (commitOne β γ m)) lcs qs vs
      (openCombinations β γ m prs lcs qs sponge) sponge = true := by
  unfold checkCombinations openCombinations
  have hmap : lcs.map (virtualComm (prs.map (commitOne β γ m))) =
      (lcs.map (virtualPair prs)).map (commitOne β γ m) := by
    rw [List.map_map]
    exact List.map_congr_left (fun lc hlc => virtualComm_eq β γ m prs lc (hwf lc hlc))
  rw [hmap]
  exact batchCheck_complete β γ m (lcs.map (virtualPair prs)) qs vs sponge hvals

/-- The virtual polynomial's evaluation is the coefficient-weighted sum of
the referenced polynomials' evaluations. -/
theorem evalPoly_lcPoly (prs : List (LabeledPoly F × PCRandomness F))
    (lc : LinearCombination F) (z : F) :
    evalPoly (lcPoly prs lc) z =
      (lc.terms.map (fun t => t.1 * evalPoly (lookupPair prs t.2).1.coeffs z)).sum := by
  unfold lcPoly
  induction lc.terms with
  | nil => simp [evalPoly]
  | cons t ts ih => simp [evalPoly_addPoly, evalPoly_scalePoly, ih]

end PCSLemmas

section LagrangeLemmas

variable {F : Type} [Field F] [DecidableEq F]

theorem evalPoly_zipWith_scale (x : F) :
    ∀ (es : List F) (bs : List (List F)),
      evalPoly ((List.zipWith scalePoly es bs).foldr addPoly []) x =
        (List.zipWith (fun e b => e * evalPoly b x) es bs).sum := by
  intro es
  induction es with
  | nil => intro bs; simp [evalPoly]
  | cons e es ih =>
    intro bs
    cases bs with
    | nil => simp [evalPoly]
    | cons b bs =>
      simp only [List.zipWith_cons_cons, List.foldr_cons, List.sum_cons,
        evalPoly_addPoly, evalPoly_scalePoly, ih]

/-- The interpolated polynomial evaluates to the evaluation-weighted sum of
the Lagrange basis polynomials' evaluations. -/
theorem evalPoly_interpolate (dom : List F) (es : List F) (x : F) :
    evalPoly (interpolate dom es) x =
      (List.zipWith (fun e b => e * evalPoly b x) es (lagrangeBasis dom)).sum := by
  unfold interpolate
  exact evalPoly_zipWith_scale x es (lagrangeBasis dom)

/-- Basis equivalence of the modelled commitment engine: committing a
Lagrange-basis labeled polynomial directly from the Lagrange SRS elements
produces exactly the commitment of its interpolated coefficient form, for
the same blinding randomness. -/
theorem commitLagrangeOne_eq (β γ : F) (m : Nat)
    (pl : LabeledPolyWithBasis F × PCRandomness F) :
    commitLagrangeOne β γ pl = commitOne β γ m (interpolatedPair pl) := by
  unfold commitLagrangeOne interpolatedPair commitOne
  dsimp only
  rw [evalPoly_interpolate]
  simp

end LagrangeLemmas

end Sonic

/-- C9: `LookupConstraint::is_satisfied` returns `true` for every constraint,
regardless of whether the product of the values of its first two linear
combinations equals the value of the third — the condition the `Display`
implementation uses to distinguish satisfied from unsatisfied constraints; in
particular it returns `true` on a concrete constraint whose display condition
is false. -/
theorem claim_C9_is_satisfied_always_true :
    (∀ (F : Type) (instF : Field F) (k : Circuit.LookupConstraint F),
        @Circuit.LookupConstraint.is_satisfied F instF k = true) ∧
      Circuit.displayCondition Circuit.demoUnsatisfied = false ∧
      Circuit.demoUnsatisfied.is_satisfied = true := by
  refine ⟨fun F instF k => rfl, ?_, rfl⟩
  decide

/-- C10: every Lagrange domain size that `lagrange_test_template` inserts
into `supported_lagrange_sizes` — obtained from a raw sample in `1..128` via
`next_power_of_two`, with the evaluation domain built on the evaluation
vector's length — is a power of two, is at most 128, and equals the length of
the committed evaluation vector. -/
theorem claim_C10_lagrange_sizes :
    (∀ s : Fin 127,
        (∃ k : Fin 8, TestTemplates.lagrangeInsertedSize (s.1 + 1) = 2 ^ k.1) ∧
          TestTemplates.lagrangeInsertedSize (s.1 + 1) ≤ 128 ∧
          TestTemplates.lagrangeInsertedSize (s.1 + 1) =
            TestTemplates.rustNextPowerOfTwo (s.1 + 1)) ∧
      (∀ (F : Type) (instF : Field F) (f : Nat → F) (n : Nat),
        (@TestTemplates.lagrangeEvals F instF f n).length = n) := by
  constructor
  · decide
  · intro F instF f n
    simp [TestTemplates.lagrangeEvals]

/-- C6 counterexample: not every test scenario performs at least 100
iterations — `bad_degree_bound_test` (10 iterations) and
`lagrange_test_template` (10 iterations) fall short. -/
theorem claim_C6_counterexample :
    TestTemplates.allScenariosAtLeast 100 = false := by rfl

/-- C6 (amended): the `TestInfo`-parameterized test scenarios all perform 100
randomized iterations, while `bad_degree_bound_test` and
`lagrange_test_template` perform 10 each. -/
theorem claim_C6_iteration_counts :
    TestTemplates.scenarioIterations.all
        (fun p => decide (p.2 = 100) || decide (p.2 = 10)) = true ∧
      TestTemplates.badDegreeBoundIterations = 10 ∧
      TestTemplates.lagrangeIterations = 10 ∧
      ("bad_degree_bound_test", 10) ∈ TestTemplates.scenarioIterations ∧
      ("lagrange_test_template", 10) ∈ TestTemplates.scenarioIterations ∧
      TestTemplates.scenarioIterations.all
        (fun p => decide (p.1 = "bad_degree_bound_test") ||
          decide (p.1 = "lagrange_test_template") || decide (p.2 = 100)) = true := by
  decide

/-- C3 counterexample: at a concrete input the `should_have_degree_bounds`
branch short-circuits to the single term `(1, "Test0")`, yet the referenced
polynomial carries no degree bound — refuting the claim that the term always
carries one. -/
theorem claim_C3_counterexample :
    (TestTemplates.eqnTermsValue
        ([⟨"Test0", [2, 1], none, some 1⟩] : List (Sonic.LabeledPoly (ZMod 101)))
        true 3 []).1 = [(1, "Test0")] ∧
      (([⟨"Test0", [2, 1], none, some 1⟩] : List (Sonic.LabeledPoly (ZMod 101))).map
        (fun p => p.degree_bound)) = [none] := by
  decide

/-- C3 (amended): whenever the `should_have_degree_bounds` branch is taken
and at least one polynomial exists, the constructed linear combination
short-circuits to exactly one term with coefficient one referencing the
first polynomial (so it carries a degree bound exactly when the first
polynomial was assigned one), the claimed value is that polynomial's
evaluation, and the remaining polynomials' coefficients are discarded. -/
theorem claim_C3_short_circuit (F : Type) [Field F] [DecidableEq F]
    (p : Sonic.LabeledPoly F) (rest : List (Sonic.LabeledPoly F)) (z : F)
    (cs : List F) :
    (TestTemplates.eqnTermsValue (p :: rest) true z cs).1 = [(1, p.label)] ∧
      (TestTemplates.eqnTermsValue (p :: rest) true z cs).2 =
        Sonic.evalPoly p.coeffs z := by
  exact ⟨rfl, rfl⟩

namespace TestTemplates

theorem snd_mem_of_mem_enumFrom {α : Type} (c : Nat × α) :
    ∀ (l : List α) (n : Nat), c ∈ l.enumFrom n → c.2 ∈ l := by
  intro l
  induction l with
  | nil => intro n h; simp [List.enumFrom] at h
  | cons a l ih =>
    intro n h
    rw [List.enumFrom, List.mem_cons] at h
    rcases h with h | h
    · rw [h]; exact List.mem_cons_self a l
    · exact List.mem_cons_of_mem a (ih (n + 1) h)

theorem snd_mem_of_mem_enum {α : Type} (c : Nat × α) (l : List α)
    (h : c ∈ l.enum) : c.2 ∈ l :=
  snd_mem_of_mem_enumFrom c l 0 h

theorem getD_mod_mem (l : List Nat) (n : Nat) (h : l ≠ []) :
    l.getD (n % l.length) 0 ∈ l := by
  have hlt : n % l.length < l.length := Nat.mod_lt _ (List.length_pos.mpr h)
  rw [List.getD_eq_getElem?_getD, List.getElem?_eq_getElem hlt]
  exact List.getElem_mem hlt

theorem chooseDegreeBound_mem (enforce : Bool) (degree suppDeg : Nat)
    (flag : Bool) (pick : Nat) (d : Nat)
    (h : chooseDegreeBound enforce degree suppDeg flag pick = some d) :
    d ∈ trimmedBounds degree suppDeg := by
  unfold chooseDegreeBound at h
  by_cases hc : (enforce && !(trimmedBounds degree suppDeg).isEmpty && flag) = true
  · rw [if_pos hc] at h
    have hne : trimmedBounds degree suppDeg ≠ [] := by
      intro habs
      rw [habs] at hc
      simp at hc
    rw [Option.some.injEq] at h
    rw [← h]
    exact getD_mod_mem _ pick hne
  · rw [if_neg hc] at h
    exact absurd h (Option.noConfusion)

theorem mem_trimmedBounds (degree suppDeg d : Nat)
    (h : d ∈ trimmedBounds degree suppDeg) : degree ≤ d ∧ d < suppDeg := by
  unfold trimmedBounds at h
  rw [List.mem_filter] at h
  have := h.2
  simp at this
  exact this

theorem dropWhile_length_le {α : Type} (p : α → Bool) (l : List α) :
    (l.dropWhile p).length ≤ l.length := by
  induction l with
  | nil => simp
  | cons a l ih =>
    cases h : p a
    · simp [List.dropWhile_cons, h]
    · simp only [List.dropWhile_cons, h, if_pos, List.length_cons]
      omega

theorem natDegree_le {F : Type} [Field F] [DecidableEq F] (p : List F) :
    natDegree p ≤ p.length - 1 := by
  unfold natDegree trimTrailingZeros
  have h1 : (p.reverse.dropWhile (fun a => decide (a = 0))).length ≤ p.reverse.length :=
    dropWhile_length_le _ _
  rw [List.length_reverse] at h1
  rw [List.length_reverse]
  omega

end TestTemplates

/-- C4 counterexample: `bad_degree_bound_test` constructs a labeled
polynomial with degree bound 1 — a member of its `degree_bounds` set — over
coefficients of degree 2, so the bound is smaller than the actual degree. -/
theorem claim_C4_counterexample :
    (TestTemplates.badDegreeBoundPoly 0 ([0, 0, 1] : List (ZMod 101))).degree_bound =
        some 1 ∧
      1 ∈ TestTemplates.badDegreeBounds ∧
      TestTemplates.natDegree ([0, 0, 1] : List (ZMod 101)) = 2 ∧
      ¬ TestTemplates.natDegree ([0, 0, 1] : List (ZMod 101)) ≤ 1 := by
  decide

/-- C4 (amended): for every labeled polynomial constructed with a degree
bound by `test_template`/`equation_test_template` (whose coefficients were
sampled at the sampled degree), the bound is a member of the iteration's
`degree_bounds` set and is at least the polynomial's actual degree;
`bad_degree_bound_test` violates the second part by design. -/
theorem claim_C4_degree_bounds (F : Type) [Field F] [DecidableEq F]
    (enforce : Bool) (suppDeg : Nat) (cs : List (TestTemplates.PolyChoice F))
    (hlen : ∀ c ∈ cs, c.coeffs.length = c.degree + 1) :
    ∀ p ∈ TestTemplates.genPolys enforce suppDeg cs, ∀ d, p.degree_bound = some d →
      d ∈ TestTemplates.genDegreeBounds enforce suppDeg cs ∧
        TestTemplates.natDegree p.coeffs ≤ d := by
  intro p hp d hd
  rw [TestTemplates.genPolys, List.mem_map] at hp
  obtain ⟨ic, hic, rfl⟩ := hp
  have hc : ic.2 ∈ cs := TestTemplates.snd_mem_of_mem_enum ic cs hic
  have hd' : TestTemplates.chooseDegreeBound enforce ic.2.degree suppDeg
      ic.2.flag ic.2.pick = some d := hd
  have hmem := TestTemplates.chooseDegreeBound_mem enforce ic.2.degree suppDeg
    ic.2.flag ic.2.pick d hd'
  constructor
  · rw [TestTemplates.genDegreeBounds, List.mem_filterMap]
    exact ⟨ic.2, hc, hd'⟩
  · have h1 : ic.2.degree ≤ d :=
      (TestTemplates.mem_trimmedBounds ic.2.degree suppDeg d hmem).1
    have h2 := @TestTemplates.natDegree_le F _ _ ic.2.coeffs
    rw [hlen ic.2 hc] at h2
    have h3 : TestTemplates.natDegree (TestTemplates.genPoly enforce suppDeg ic.1 ic.2).coeffs =
        TestTemplates.natDegree ic.2.coeffs := rfl
    omega

/-- C4 witness: a concrete run of the template's bound selection in which the
chosen bound 1024 lands in the degree-bounds set and dominates the actual
degree. -/
theorem claim_C4_witness :
    1024 ∈ TestTemplates.genDegreeBounds true 2000
        ([⟨1, [5, 7], true, 0⟩] : List (TestTemplates.PolyChoice (ZMod 101))) ∧
      TestTemplates.natDegree ([5, 7] : List (ZMod 101)) ≤ 1024 := by
  have h := claim_C4_degree_bounds (ZMod 101) true 2000
    ([⟨1, [5, 7], true, 0⟩]) (by decide)
    (TestTemplates.genPoly true 2000 0 ⟨1, [5, 7], true, 0⟩) (by decide)
    1024 (by decide)
  exact ⟨h.1, h.2⟩

namespace TestTemplates

theorem natDegree_pair {F : Type} [Field F] [DecidableEq F] (a b : F)
    (hb : b ≠ 0) : natDegree [a, b] = 1 := by
  unfold natDegree trimTrailingZeros
  simp [List.dropWhile_cons, hb]

end TestTemplates

/-- C5 counterexample: in `linear_poly_degree_bound_test` the trimmed
candidate-bound list for degree 1 and supported degree 1 is empty (every
candidate is at least 1024, but a candidate must be strictly below the
supported degree 1), so no degree bound is ever selected — in particular the
bound is not 2 as the claim states. -/
theorem claim_C5_counterexample :
    TestTemplates.trimmedBounds 1 1 = [] ∧
      TestTemplates.chooseDegreeBound true 1 1 true 0 = none ∧
      ¬ TestTemplates.chooseDegreeBound true 1 1 true 0 = some 2 := by
  decide

/-- C5 (amended): in `linear_poly_degree_bound_test` (`max_degree = 2`,
`supported_degree = 1`, one polynomial, one query point,
`enforce_degree_bounds = true`), the sampled degree is always 1 (so the
polynomial has degree 1 whenever its sampled leading coefficient is nonzero),
the polynomial carries no degree bound, and `batch_open` followed by
`batch_check` on the commitment returns true for every iteration. -/
theorem claim_C5_linear_poly_test (F : Type) [Field F] [DecidableEq F]
    (flag : Bool) (pick : Nat) (a b : F) (r : Sonic.PCRandomness F)
    (β γ z : F) (sponge : List F → Nat → F) :
    TestTemplates.linearPolyDegreeBoundTestInfo.max_degree = some 2 ∧
      TestTemplates.linearPolyDegreeBoundTestInfo.supported_degree = some 1 ∧
      (∀ rdraw : Nat, TestTemplates.sampleUniform 1 1 rdraw = 1) ∧
      TestTemplates.chooseDegreeBound true 1 1 flag pick = none ∧
      (b ≠ 0 → TestTemplates.natDegree [a, b] = 1) ∧
      Sonic.batchCheck β γ 2
        ([(⟨"Test0", [a, b], TestTemplates.chooseDegreeBound true 1 1 flag pick,
            some 1⟩, r)].map (Sonic.commitOne β γ 2))
        [("Test0", ("rand_0", z))]
        [(("Test0", z), Sonic.evalPoly [a, b] z)]
        (Sonic.batchOpen β γ 2
          [(⟨"Test0", [a, b], TestTemplates.chooseDegreeBound true 1 1 flag pick,
            some 1⟩, r)]
          [("Test0", ("rand_0", z))] sponge)
        sponge = true := by
  have htrim : TestTemplates.trimmedBounds 1 1 = [] := rfl
  refine ⟨rfl, rfl, ?_, ?_, ?_, ?_⟩
  · intro rdraw
    simp [TestTemplates.sampleUniform, Nat.mod_one]
  · simp [TestTemplates.chooseDegreeBound, htrim]
  · intro hb
    exact TestTemplates.natDegree_pair a b hb
  · apply Sonic.batchCheck_complete
    intro q hq
    rw [List.mem_singleton] at hq
    subst hq
    simp [Sonic.lookupEval, Sonic.lookupPair, List.find?]

/-- C5 witness: the amended statement instantiated over `ZMod 101` with
coefficients `[3, 1]` — the polynomial has degree 1 and the batch check
accepts. -/
theorem claim_C5_witness :
    TestTemplates.natDegree ([3, 1] : List (ZMod 101)) = 1 ∧
      Sonic.batchCheck (5 : ZMod 101) 7 2
        ([(⟨"Test0", [3, 1], TestTemplates.chooseDegreeBound true 1 1 true 0,
            some 1⟩, ⟨[], []⟩)].map (Sonic.commitOne 5 7 2))
        [("Test0", ("rand_0", 2))]
        [(("Test0", 2), Sonic.evalPoly [3, 1] 2)]
        (Sonic.batchOpen (5 : ZMod 101) 7 2
          [(⟨"Test0", [3, 1], TestTemplates.chooseDegreeBound true 1 1 true 0,
            some 1⟩, ⟨[], []⟩)]
          [("Test0", ("rand_0", 2))] (fun _ n => (n : ZMod 101) + 1))
        (fun _ n => (n : ZMod 101) + 1) = true := by
  have h := claim_C5_linear_poly_test (ZMod 101) true 0 3 1 ⟨[], []⟩ 5 7 2
    (fun _ n => (n : ZMod 101) + 1)
  exact ⟨h.2.2.2.2.1 (by decide), h.2.2.2.2.2⟩

namespace TestTemplates

theorem eqnBuildPoint_all_nonempty {F : Type} [Field F] [DecidableEq F]
    (polys : List (Sonic.LabeledPoly F)) (i : Nat) (z : F) :
    ∀ (chs : List (EqnChoice F)) (j : Nat),
      ((eqnBuildPoint polys i z j chs).1.all (fun lc => !(Sonic.lcIsEmpty lc))) = true := by
  intro chs
  induction chs with
  | nil => intro j; rfl
  | cons ch chs ih =>
    intro j
    rw [eqnBuildPoint]
    by_cases h : ((eqnTermsValue polys ch.flag z ch.coeffs).1.isEmpty = true)
    · rw [if_pos h]
      exact ih (j + 1)
    · rw [if_neg h]
      rw [Bool.not_eq_true] at h
      simp only [List.all_cons, Sonic.lcIsEmpty, h, Bool.not_false, Bool.true_and]
      exact ih (j + 1)

theorem eqnBuildAll_all_nonempty {F : Type} [Field F] [DecidableEq F]
    (polys : List (Sonic.LabeledPoly F)) :
    ∀ (pcs : List (F × List (EqnChoice F))) (i : Nat),
      ((eqnBuildAll polys i pcs).1.all (fun lc => !(Sonic.lcIsEmpty lc))) = true := by
  intro pcs
  induction pcs with
  | nil => intro i; rfl
  | cons pc pcs ih =>
    intro i
    rw [eqnBuildAll]
    rw [List.all_append]
    rw [eqnBuildPoint_all_nonempty polys i pc.1 pc.2 0, ih (i + 1)]
    rfl

end TestTemplates

/-- C7: in the modelled `equation_test_template` iteration, every linear
combination in the list handed to `open_combinations` is nonempty (empty
combinations are filtered at construction), and when every constructed
combination in an iteration is empty the iteration is skipped with no error
and produces no `TestComponents` entry. -/
theorem claim_C7_empty_lcs_skipped (F : Type) [Field F] [DecidableEq F]
    (polys : List (Sonic.LabeledPoly F))
    (choices : List (F × List (TestTemplates.EqnChoice F))) :
    ((TestTemplates.eqnBuildAll polys 0 choices).1.all
        (fun lc => !(Sonic.lcIsEmpty lc))) = true ∧
      ((TestTemplates.eqnBuildAll polys 0 choices).1.isEmpty = true →
        TestTemplates.eqnIteration polys choices = none) := by
  constructor
  · exact TestTemplates.eqnBuildAll_all_nonempty polys choices 0
  · intro h
    unfold TestTemplates.eqnIteration
    rw [if_pos h]

/-- C7 witness: with a single bound-carrying polynomial and only `else`-arm
equations, every combination is empty and the iteration yields nothing. -/
theorem claim_C7_witness :
    ((TestTemplates.eqnBuildAll
        ([⟨"Test0", [1], some 1, some 1⟩] : List (Sonic.LabeledPoly (ZMod 101))) 0
        [(2, [⟨false, [3]⟩])]).1.all (fun lc => !(Sonic.lcIsEmpty lc))) = true ∧
      TestTemplates.eqnIteration
        ([⟨"Test0", [1], some 1, some 1⟩] : List (Sonic.LabeledPoly (ZMod 101)))
        [(2, [⟨false, [3]⟩])] = none := by
  refine ⟨(claim_C7_empty_lcs_skipped (ZMod 101) _ _).1,
    (claim_C7_empty_lcs_skipped (ZMod 101) _ _).2 (by decide)⟩

namespace TestTemplates

theorem eqnBuildPoint_queries_have_values {F : Type} [Field F] [DecidableEq F]
    (polys : List (Sonic.LabeledPoly F)) (i : Nat) (z : F) :
    ∀ (chs : List (EqnChoice F)) (j : Nat) (q : String × String × F),
      q ∈ (eqnBuildPoint polys i z j chs).2.1 →
      (q.1, q.2.2) ∈ ((eqnBuildPoint polys i z j chs).2.2).map (fun e => e.1) := by
  intro chs
  induction chs with
  | nil => intro j q hq; simp [eqnBuildPoint] at hq
  | cons ch chs ih =>
    intro j q hq
    rw [eqnBuildPoint] at hq ⊢
    by_cases h : ((eqnTermsValue polys ch.flag z ch.coeffs).1.isEmpty = true)
    · rw [if_pos h] at hq ⊢
      simp only [List.map_cons]
      exact List.mem_cons_of_mem _ (ih (j + 1) q hq)
    · rw [if_neg h] at hq ⊢
      simp only [List.map_cons]
      rcases List.mem_cons.mp hq with hq | hq
      · rw [hq]
        exact List.mem_cons_self _ _
      · exact List.mem_cons_of_mem _ (ih (j + 1) q hq)

theorem eqnBuildAll_queries_have_values {F : Type} [Field F] [DecidableEq F]
    (polys : List (Sonic.LabeledPoly F)) :
    ∀ (pcs : List (F × List (EqnChoice F))) (i : Nat) (q : String × String × F),
      q ∈ (eqnBuildAll polys i pcs).2.1 →
      (q.1, q.2.2) ∈ ((eqnBuildAll polys i pcs).2.2).map (fun e => e.1) := by
  intro pcs
  induction pcs with
  | nil => intro i q hq; simp [eqnBuildAll] at hq
  | cons pc pcs ih =>
    intro i q hq
    rw [eqnBuildAll] at hq ⊢
    rw [List.map_append]
    rcases List.mem_append.mp hq with hq | hq
    · exact List.mem_append_left _ (eqnBuildPoint_queries_have_values polys i pc.1 pc.2 0 q hq)
    · exact List.mem_append_right _ (ih (i + 1) q hq)

end TestTemplates

/-- C8: for every query set and evaluations map built together by the
templates — the point-times-label product loop of
`test_template`/`lagrange_test_template`, and the equation loop of
`equation_test_template` — every `(label, (query-name, point))` pair inserted
into the query set has a corresponding `(label, point)` entry in the
evaluations map. -/
theorem claim_C8_queries_have_values (F : Type) [Field F] [DecidableEq F] :
    (∀ (polys : List (Sonic.LabeledPoly F)) (points : List F),
      ∀ q ∈ TestTemplates.tmplQueries (polys.map (fun p => p.label)) points,
        (q.1, q.2.2) ∈ (TestTemplates.tmplValues polys points).map (fun e => e.1)) ∧
      (∀ (polys : List (Sonic.LabeledPoly F))
          (choices : List (F × List (TestTemplates.EqnChoice F))),
        ∀ q ∈ (TestTemplates.eqnBuildAll polys 0 choices).2.1,
          (q.1, q.2.2) ∈
            ((TestTemplates.eqnBuildAll polys 0 choices).2.2).map (fun e => e.1)) := by
  constructor
  · intro polys points q hq
    rw [TestTemplates.tmplQueries, List.mem_flatMap] at hq
    obtain ⟨iz, hiz, hq⟩ := hq
    rw [List.mem_map] at hq
    obtain ⟨l, hl, rfl⟩ := hq
    rw [List.mem_map] at hl
    obtain ⟨p, hp, rfl⟩ := hl
    rw [TestTemplates.tmplValues, List.mem_map]
    exact ⟨((p.label, iz.2), Sonic.evalPoly p.coeffs iz.2),
      List.mem_flatMap.mpr ⟨iz, hiz, List.mem_map.mpr ⟨p, hp, rfl⟩⟩, rfl⟩
  · intro polys choices q hq
    exact TestTemplates.eqnBuildAll_queries_have_values polys choices 0 q hq

/-- C8 witness: the correspondence applied to concrete runs of both
builders. -/
theorem claim_C8_witness :
    ("Test0", (2 : ZMod 101)) ∈
        (TestTemplates.tmplValues
          ([⟨"Test0", [3, 1], none, some 1⟩] : List (Sonic.LabeledPoly (ZMod 101)))
          [2]).map (fun e => e.1) ∧
      ("query 0 eqn 0", (2 : ZMod 101)) ∈
        ((TestTemplates.eqnBuildAll
          ([⟨"Test0", [3, 1], none, some 1⟩] : List (Sonic.LabeledPoly (ZMod 101))) 0
          [(2, [⟨true, []⟩])]).2.2).map (fun e => e.1) := by
  constructor
  · exact (claim_C8_queries_have_values (ZMod 101)).1
      [⟨"Test0", [3, 1], none, some 1⟩] [2] ("Test0", ("rand_0", 2)) (by decide)
  · exact (claim_C8_queries_have_values (ZMod 101)).2
      [⟨"Test0", [3, 1], none, some 1⟩] [(2, [⟨true, []⟩])]
      ("query 0 eqn 0", ("rand_0", 2)) (by decide)

/-- C1: completeness of the modelled protocol, under the test templates'
generation discipline. For every iteration in which the polynomials'
degrees are within the supported degree (itself within the trimmed maximum
degree) and the claimed evaluations are the true evaluations, the proof
produced by `batch_open` makes `batch_check` return true on the matching
commitments, query set and evaluations; likewise, for well-formed linear
combinations whose claimed evaluations are the true evaluations of the
virtual polynomials, the proof produced by `open_combinations` makes
`check_combinations` return true. -/
theorem claim_C1_completeness (F : Type) [Field F] [DecidableEq F] :
    (∀ (β γ : F) (m suppDeg : Nat)
        (prs : List (Sonic.LabeledPoly F × Sonic.PCRandomness F))
        (qs : Sonic.QuerySet F) (vs : Sonic.EvalMap F)
        (sponge : List F → Nat → F),
      suppDeg ≤ m →
      (∀ pr ∈ prs, TestTemplates.natDegree pr.1.coeffs ≤ suppDeg) →
      (∀ q ∈ qs, Sonic.lookupEval vs q.1 q.2.2 =
        Sonic.evalPoly (Sonic.lookupPair prs q.1).1.coeffs q.2.2) →
      Sonic.batchCheck β γ m (prs.map (Sonic.commitOne β γ m)) qs vs
        (Sonic.batchOpen β γ m prs qs sponge) sponge = true) ∧
      (∀ (β γ : F) (m suppDeg : Nat)
          (prs : List (Sonic.LabeledPoly F × Sonic.PCRandomness F))
          (lcs : List (Sonic.LinearCombination F))
          (qs : Sonic.QuerySet F) (vs : Sonic.EvalMap F)
          (sponge : List F → Nat → F),
        suppDeg ≤ m →
        (∀ pr ∈ prs, TestTemplates.natDegree pr.1.coeffs ≤ suppDeg) →
        (∀ lc ∈ lcs, Sonic.lcWellFormed prs lc) →
        (∀ q ∈ qs, Sonic.lookupEval vs q.1 q.2.2 =
          Sonic.evalPoly
            (Sonic.lookupPair (lcs.map (Sonic.virtualPair prs)) q.1).1.coeffs q.2.2) →
        Sonic.checkCombinations β γ m (prs.map (Sonic.commitOne β γ m)) lcs qs vs
          (Sonic.openCombinations β γ m prs lcs qs sponge) sponge = true) := by
  constructor
  · intro β γ m suppDeg prs qs vs sponge _ _ hvals
    exact Sonic.batchCheck_complete β γ m prs qs vs sponge hvals
  · intro β γ m suppDeg prs lcs qs vs sponge _ _ hwf hvals
    exact Sonic.checkCombinations_complete β γ m prs lcs qs vs sponge hwf hvals

/-- C1 witness: both completeness statements instantiated over `ZMod 101` —
one polynomial `X + 3` opened at `2` with true evaluation `5`, and one linear
combination `2·Test0` with true evaluation `10`; both checks accept. -/
theorem claim_C1_witness :
    Sonic.batchCheck (11 : ZMod 101) 7 4
        (([(⟨"Test0", [3, 1], none, some 1⟩, ⟨[5], []⟩)] :
            List (Sonic.LabeledPoly (ZMod 101) × Sonic.PCRandomness (ZMod 101))).map
          (Sonic.commitOne 11 7 4))
        [("Test0", ("rand", 2))] [(("Test0", 2), 5)]
        (Sonic.batchOpen (11 : ZMod 101) 7 4
          [(⟨"Test0", [3, 1], none, some 1⟩, ⟨[5], []⟩)]
          [("Test0", ("rand", 2))] (fun _ n => (n : ZMod 101) + 2))
        (fun _ n => (n : ZMod 101) + 2) = true ∧
      Sonic.checkCombinations (11 : ZMod 101) 7 4
        (([(⟨"Test0", [3, 1], none, some 1⟩, ⟨[5], []⟩)] :
            List (Sonic.LabeledPoly (ZMod 101) × Sonic.PCRandomness (ZMod 101))).map
          (Sonic.commitOne 11 7 4))
        [⟨"q0", [(2, "Test0")]⟩]
        [("q0", ("rand_0", 2))] [(("q0", 2), 10)]
        (Sonic.openCombinations (11 : ZMod 101) 7 4
          [(⟨"Test0", [3, 1], none, some 1⟩, ⟨[5], []⟩)]
          [⟨"q0", [(2, "Test0")]⟩] [("q0", ("rand_0", 2))]
          (fun _ n => (n : ZMod 101) + 2))
        (fun _ n => (n : ZMod 101) + 2) = true := by
  constructor
  · exact (claim_C1_completeness (ZMod 101)).1 11 7 4 1
      [(⟨"Test0", [3, 1], none, some 1⟩, ⟨[5], []⟩)]
      [("Test0", ("rand", 2))] [(("Test0", 2), 5)]
      (fun _ n => (n : ZMod 101) + 2) (by decide) (by decide) (by decide)
  · exact (claim_C1_completeness (ZMod 101)).2 11 7 4 1
      [(⟨"Test0", [3, 1], none, some 1⟩, ⟨[5], []⟩)]
      [⟨"q0", [(2, "Test0")]⟩]
      [("q0", ("rand_0", 2))] [(("q0", 2), 10)]
      (fun _ n => (n : ZMod 101) + 2) (by decide) (by decide)
      (fun lc hlc => by
        rw [List.mem_singleton] at hlc
        subst hlc
        exact Or.inl (by decide))
      (by decide)

/-- C2: basis equivalence. Committing a Lagrange-basis labeled polynomial
directly from the Lagrange SRS elements produces exactly the commitment of
its interpolated coefficient form with the same randomness; consequently the
commitments obtained from the `LabeledPolynomialWithBasis` inputs verify
under `batch_check` against a proof opened from the coefficient-form
`LabeledPolynomial` inputs with correct evaluations. -/
theorem claim_C2_basis_equivalence (F : Type) [Field F] [DecidableEq F] :
    (∀ (β γ : F) (m : Nat)
        (pl : Sonic.LabeledPolyWithBasis F × Sonic.PCRandomness F),
      Sonic.commitLagrangeOne β γ pl = Sonic.commitOne β γ m (Sonic.interpolatedPair pl)) ∧
      (∀ (β γ : F) (m : Nat)
          (pls : List (Sonic.LabeledPolyWithBasis F × Sonic.PCRandomness F))
          (qs : Sonic.QuerySet F) (vs : Sonic.EvalMap F)
          (sponge : List F → Nat → F),
        (∀ q ∈ qs, Sonic.lookupEval vs q.1 q.2.2 =
          Sonic.evalPoly
            (Sonic.lookupPair (pls.map Sonic.interpolatedPair) q.1).1.coeffs q.2.2) →
        Sonic.batchCheck β γ m (pls.map (Sonic.commitLagrangeOne β γ)) qs vs
          (Sonic.batchOpen β γ m (pls.map Sonic.interpolatedPair) qs sponge)
          sponge = true) := by
  constructor
  · intro β γ m pl
    exact Sonic.commitLagrangeOne_eq β γ m pl
  · intro β γ m pls qs vs sponge hvals
    have hmap : pls.map (Sonic.commitLagrangeOne β γ) =
        (pls.map Sonic.interpolatedPair).map (Sonic.commitOne β γ m) := by
      rw [List.map_map]
      exact List.map_congr_left (fun pl _ => Sonic.commitLagrangeOne_eq β γ m pl)
    rw [hmap]
    exact Sonic.batchCheck_complete β γ m (pls.map Sonic.interpolatedPair) qs vs sponge hvals

/-- C2 witness: the second part instantiated over `ZMod 101` with one
Lagrange-basis polynomial over the singleton domain `[0]`. -/
theorem claim_C2_witness :
    Sonic.batchCheck (5 : ZMod 101) 7 4
      (([(⟨"L", [3], [0], some 1⟩, ⟨[2], []⟩)] :
          List (Sonic.LabeledPolyWithBasis (ZMod 101) × Sonic.PCRandomness (ZMod 101))).map
        (Sonic.commitLagrangeOne 5 7))
      [] []
      (Sonic.batchOpen (5 : ZMod 101) 7 4
        (([(⟨"L", [3], [0], some 1⟩, ⟨[2], []⟩)] :
            List (Sonic.LabeledPolyWithBasis (ZMod 101) × Sonic.PCRandomness (ZMod 101))).map
          Sonic.interpolatedPair)
        [] (fun _ n => (n : ZMod 101)))
      (fun _ n => (n : ZMod 101)) = true :=
  (claim_C2_basis_equivalence (ZMod 101)).2 5 7 4
    [(⟨"L", [3], [0], some 1⟩, ⟨[2], []⟩)] [] []
    (fun _ n => (n : ZMod 101)) (by simp)
